import Mathlib

/-!
Verification of the script-literal scanner in `src/lib/src/sql/script.rs`.

The Rust code is a small recursive-descent scanner built from nom 7
combinators (`is_not`, `tag`, `one_of`, `escaped`, `alt`, `many1`,
`recognize`), all taken from `nom::*::complete`, so no combinator in this
file ever produces `nom::Err::Incomplete`; failures are `nom::Err::Error`
unless a combinator explicitly raises `Failure` (none here does).

The embedding: input is a `List Char`; a parser returns
`Except ErrKind (remaining, output)`, mirroring
`IResult<&str, &str> = Result<(&str, &str), nom::Err<E>>`.  The error
payload type (from the repository's `sql/error.rs`, outside the given
sources) is dropped since no claim depends on it; only the `nom::Err`
variant (`Error` / `Failure` / `Incomplete`) is kept.

The mutual recursion `script_raw` / `char_object` is realised with a fuel
parameter; fuel exhaustion yields the marker `.error .failure`, which is
never reached for the fuel budget `scriptFuel` used by `script` on the
inputs evaluated below (every theorem about a successful or `.error .error`
result evaluates the scanner concretely, so a fuel shortfall would be
visible as a `.failure`).
-/

/-- The three variants of `nom::Err`. The `complete` combinators used by
`script.rs` only ever construct `.error`. `.failure` doubles as the
fuel-exhaustion marker of the embedding (unreachable with the fuel budget
used by `script`). -/
inductive ErrKind where
  | error : ErrKind
  | failure : ErrKind
  | incomplete : ErrKind
deriving DecidableEq, Repr

/-- Result of a sub-scanner: `(remaining input, recognized output)` on
success, mirroring `IResult<&str, &str>`. -/
abbrev Res := Except ErrKind (List Char × List Char)

/-- Character `'\x7b'` — written via `Char.ofNat` to keep brace
characters out of literals. -/
def LBRACE : Char := Char.ofNat 123

/-- Character `'\x7d'`. -/
def RBRACE : Char := Char.ofNat 125

/-- The backtick character `'\x60'`. -/
def BTICK : Char := Char.ofNat 96

def SINGLE : List Char := ['\'']
def SINGLE_ESC : List Char := ['\\', '\'']
def DOUBLE : List Char := ['"']
def DOUBLE_ESC : List Char := ['\\', '"']
def BACKTICK : List Char := [BTICK]
def BACKTICK_ESC : List Char := ['\\', BTICK]
def OBJECT_BEG : List Char := [LBRACE]
def OBJECT_END : List Char := [RBRACE]

/-- Mirrors `pub struct Script(pub String)` — derived `PartialEq`/`Eq` compare the
inner text verbatim. -/
structure Script where
  text : List Char
deriving DecidableEq, Repr

/-- Mirrors `impl Display for Script`: it delegates to the inner `String`'s `Display`,
which prints the text verbatim. -/
def scriptDisplay (s : Script) : List Char := s.text

/-- Mirrors `impl From<&str> for Script`. -/
def scriptFrom (s : List Char) : Script := Script.mk s

/-- Mirrors `nom::bytes::complete::is_not(set)`: longest nonempty prefix of
characters not in `set`; `Err::Error` when that prefix is empty (also on
empty input). -/
def is_not (set : List Char) (i : List Char) : Res :=
  let v := i.takeWhile (fun c => !(set.contains c))
  if v.isEmpty then .error .error else .ok (i.drop v.length, v)

/-- Mirrors `nom::bytes::complete::tag(t)`: exact prefix match, `Err::Error`
otherwise. -/
def tag (t : List Char) (i : List Char) : Res :=
  if i.take t.length = t then .ok (i.drop t.length, t) else .error .error

/-- Mirrors `nom::character::complete::one_of(set)`: one character from `set`. -/
def one_of (set : List Char) (i : List Char) : Res :=
  match i with
  | [] => .error .error
  | c :: rest => if set.contains c then .ok (rest, [c]) else .error .error

/-- Loop body of `nom::bytes::complete::escaped(normal, control, escapable)`
(nom 7), with explicit fuel.  Output is the recognized span, assembled as
the concatenation of the per-step consumed chunks (nom computes the same
span once at the end via offsets).  The branch for a `normal` parser that
succeeds consuming nothing returns the span so far, as nom does; with
`normal = is_not _` (the only instantiation in `script.rs`) that branch is
unreachable. -/
def escaped_go (normal : List Char → Res) (control : Char)
    (escapable : List Char → Res) : Nat → List Char → Res
  | 0, _ => .error .failure
  | _ + 1, [] => .ok ([], [])
  | fuel + 1, c :: rest =>
    match normal (c :: rest) with
    | .ok (i2, v) =>
      if i2.isEmpty then .ok ([], c :: rest)
      else if i2.length = (c :: rest).length then .ok (i2, [])
      else
        match escaped_go normal control escapable fuel i2 with
        | .ok (r, w) => .ok (r, v ++ w)
        | .error e => .error e
    | .error .error =>
      if c = control then
        match rest with
        | [] => .error .error
        | _ :: _ =>
          match escapable rest with
          | .ok (i2, _) =>
            if i2.isEmpty then .ok ([], c :: rest)
            else
              match escaped_go normal control escapable fuel i2 with
              | .ok (r, w) =>
                .ok (r, (c :: rest).take ((c :: rest).length - i2.length) ++ w)
              | .error e => .error e
          | .error e => .error e
      else .ok (c :: rest, [])
    | .error e => .error e

/-- Mirrors `nom::bytes::complete::escaped`: wraps the loop; a run that stops
having consumed nothing at the very start is `Err::Error`
(`ErrorKind::Escaped`), while an empty input succeeds with an empty span.
Each loop step consumes at least one character for the instantiations
used here, so `i.length + 1` fuel suffices. -/
def escaped (normal : List Char → Res) (control : Char)
    (escapable : List Char → Res) (i : List Char) : Res :=
  match escaped_go normal control escapable (i.length + 1) i with
  | .ok (r, []) => if i.isEmpty then .ok (r, []) else .error .error
  | x => x

/-- Mirrors `nom::branch::alt` on two alternatives: the second runs only when the
first fails with `Err::Error`; `Failure`/`Incomplete` propagate. -/
def alt2 (p q : List Char → Res) (i : List Char) : Res :=
  match p i with
  | .error .error => q i
  | x => x

/-- Mirrors `fn char_any` — `is_not("\x7b\x7d'`\"")`. -/
def char_any (i : List Char) : Res :=
  is_not [LBRACE, RBRACE, '\'', BTICK, '"'] i

/-- Mirrors `fn string_single` — `tag(SINGLE)`, then
`alt((escaped(is_not(SINGLE_ESC), '\\', one_of(SINGLE)), tag("")))`,
then `tag(SINGLE)`. -/
def string_single (i : List Char) : Res :=
  match tag SINGLE i with
  | .error e => .error e
  | .ok (i1, _) =>
    match alt2 (escaped (is_not SINGLE_ESC) '\\' (one_of SINGLE)) (tag []) i1 with
    | .error e => .error e
    | .ok (i2, v) =>
      match tag SINGLE i2 with
      | .error e => .error e
      | .ok (i3, _) => .ok (i3, v)

/-- Mirrors `fn string_double` — same shape with `DOUBLE`. -/
def string_double (i : List Char) : Res :=
  match tag DOUBLE i with
  | .error e => .error e
  | .ok (i1, _) =>
    match alt2 (escaped (is_not DOUBLE_ESC) '\\' (one_of DOUBLE)) (tag []) i1 with
    | .error e => .error e
    | .ok (i2, v) =>
      match tag DOUBLE i2 with
      | .error e => .error e
      | .ok (i3, _) => .ok (i3, v)

/-- Mirrors `fn string_backtick` — same shape with `BACKTICK`. -/
def string_backtick (i : List Char) : Res :=
  match tag BACKTICK i with
  | .error e => .error e
  | .ok (i1, _) =>
    match alt2 (escaped (is_not BACKTICK_ESC) '\\' (one_of BACKTICK)) (tag []) i1 with
    | .error e => .error e
    | .ok (i2, v) =>
      match tag BACKTICK i2 with
      | .error e => .error e
      | .ok (i3, _) => .ok (i3, v)

mutual

/-- Mirrors `alt((char_any, char_object, string_single, string_double,
string_backtick))` with nom's `alt` unfolded: each later alternative runs
only on `Err::Error` of the previous one. -/
def script_alt : Nat → List Char → Res
  | 0, _ => .error .failure
  | fuel + 1, i =>
    match char_any i with
    | .ok x => .ok x
    | .error .error =>
      match char_object fuel i with
      | .ok x => .ok x
      | .error .error =>
        match string_single i with
        | .ok x => .ok x
        | .error .error =>
          match string_double i with
          | .ok x => .ok x
          | .error .error => string_backtick i
          | .error e => .error e
        | .error e => .error e
      | .error e => .error e
    | .error e => .error e

/-- Mirrors `fn char_object` — `tag("\x7b")`, `script_raw`, `tag("\x7d")`. -/
def char_object : Nat → List Char → Res
  | 0, _ => .error .failure
  | fuel + 1, i =>
    match tag OBJECT_BEG i with
    | .error e => .error e
    | .ok (i1, _) =>
      match script_raw fuel i1 with
      | .error e => .error e
      | .ok (i2, v) =>
        match tag OBJECT_END i2 with
        | .error e => .error e
        | .ok (i3, _) => .ok (i3, v)

/-- First step of `nom::multi::many1` on the alternation: the first
element must match (errors propagate, `Err::Error` stays an error). -/
def many1_first : Nat → List Char → Except ErrKind (List Char)
  | 0, _ => .error .failure
  | fuel + 1, i =>
    match script_alt fuel i with
    | .error e => .error e
    | .ok (i1, _) => many1_rest fuel i1

/-- Loop of `nom::multi::many1`: stop (successfully) on `Err::Error`,
propagate other errors, and fail on a zero-length match (nom's
infinite-loop guard).  The accumulated outputs are dropped: `script_raw`
wraps the repetition in `recognize`, which only uses the remaining
input. -/
def many1_rest : Nat → List Char → Except ErrKind (List Char)
  | 0, _ => .error .failure
  | fuel + 1, i =>
    match script_alt fuel i with
    | .error .error => .ok i
    | .error e => .error e
    | .ok (i1, _) =>
      if i1.length = i.length then .error .error
      else many1_rest fuel i1

/-- Mirrors `fn script_raw` — `recognize(many1(alt(...)))`: the output is the
consumed prefix of the input. -/
def script_raw : Nat → List Char → Res
  | 0, _ => .error .failure
  | fuel + 1, i =>
    match many1_first fuel i with
    | .error e => .error e
    | .ok r => .ok (r, i.take (i.length - r.length))

end

/-- Fuel budget: each four-deep call cycle
`script_raw → many1 → script_alt → char_object → script_raw` consumes at
least one input character, so `4 * length + 8` always suffices. -/
def scriptFuel (i : List Char) : Nat := 4 * i.length + 8

/-- Mirrors `pub fn script` — `recognize(script_raw)` then
`Script(String::from(v))`. -/
def script (i : List Char) : Except ErrKind (List Char × Script) :=
  match script_raw (scriptFuel i) i with
  | .error e => .error e
  | .ok (r, _) => .ok (r, Script.mk (i.take (i.length - r.length)))

/-- Returns `true` iff the scan succeeded. -/
def resOk {α : Type} (r : Except ErrKind α) : Bool :=
  match r with
  | .ok _ => true
  | .error _ => false

/-! Concrete inputs named by the claims. -/

/-- The input of C1: `return \x7b a: "unterminated` (no closing quote, no
closing brace). -/
def c1input : List Char := ("return \x7b a: \"unterminated").toList

/-- The input of C4. -/
def c4input : List Char :=
  ("return \x7b a: \"text with \x7b unbalanced \x7b\x7b\x7b brace and a \\\" escaped quote\", b: false \x7d;").toList

/-- The brace group inside the C4 input, with the trailing `;`. -/
def c4group : List Char :=
  ("\x7b a: \"text with \x7b unbalanced \x7b\x7b\x7b brace and a \\\" escaped quote\", b: false \x7d;").toList

/-- The input of C10. -/
def c10input : List Char := ("return \x60template $\x7b1+1\x7d\x60;").toList

/-- C1 (counterexample): on `return \x7b a: "unterminated` the scan does
*not* fail — it succeeds, so the claimed incomplete/unterminated failure
does not occur. -/
theorem c1_counterexample : resOk (script c1input) = true := rfl

/-- C1 (amended): scanning `return \x7b a: "unterminated` succeeds with
the partial literal `return ` and leaves `\x7b a: "unterminated`
unconsumed; the `complete`-combinator scanner reports no
incomplete/unterminated failure on this input. -/
theorem c1_scan_consumes_head_only :
    script c1input =
      .ok (("\x7b a: \"unterminated").toList, Script.mk (("return ").toList)) := rfl

/-- C4: braces and quote characters inside the double-quoted string are
opaque: the whole input scans as one literal, and the brace group closes
at the `\x7d` after `false` (the sub-scan of the group leaves exactly `;`
unconsumed). -/
theorem c4_string_opacity :
    script c4input = .ok ([], Script.mk c4input) ∧
    char_object (scriptFuel c4group) c4group =
      .ok ([';'],
        (" a: \"text with \x7b unbalanced \x7b\x7b\x7b brace and a \\\" escaped quote\", b: false ").toList) :=
  ⟨rfl, rfl⟩

/-- C6 (counterexample): an unterminated quote (`'abc`) yields the *same*
outcome as a plain no-match (`\x7d`): both are nom `Err::Error`, so the
two claimed failure kinds are not distinct in the code. -/
theorem c6_counterexample :
    script (("'abc").toList) = script (("\x7d").toList) ∧
    script (("\x7d").toList) = .error .error := ⟨rfl, rfl⟩

/-- C6 (amended): the scanner signals every failure — unterminated quote,
unterminated brace group, or no match at all — with the single recoverable
`Err::Error` kind; no separate incomplete/unterminated kind is produced. -/
theorem c6_single_error_kind :
    script (("'abc").toList) = .error .error ∧
    script (("\x7b oops").toList) = .error .error ∧
    script (("\x7d").toList) = .error .error := ⟨rfl, rfl, rfl⟩

/-- C8: an empty brace group is rejected — `\x7b\x7d` fails entirely, and
on `a\x7b\x7db` the scan consumes only `a`, leaving `\x7b\x7db`. -/
theorem c8_empty_braces :
    script (("\x7b\x7d").toList) = .error .error ∧
    script (("a\x7b\x7db").toList) = .ok (("\x7b\x7db").toList, Script.mk ['a']) :=
  ⟨rfl, rfl⟩

/-- C9: an empty quoted string of each style is accepted by its string
sub-scanner (via the `tag("")` alternative), and a literal consisting of
just the two quotes scans with the quotes verbatim in the text. -/
theorem c9_empty_strings :
    string_single (("''").toList) = .ok ([], []) ∧
    string_double (("\"\"").toList) = .ok ([], []) ∧
    string_backtick (("\x60\x60").toList) = .ok ([], []) ∧
    script (("''").toList) = .ok ([], Script.mk (("''").toList)) ∧
    script (("\"\"").toList) = .ok ([], Script.mk (("\"\"").toList)) ∧
    script (("\x60\x60").toList) = .ok ([], Script.mk (("\x60\x60").toList)) :=
  ⟨rfl, rfl, rfl, rfl, rfl, rfl⟩

/-- C10: `return \x60template $\x7b1+1\x7d\x60;` scans as one literal
identical to the whole input, and the backtick string swallows the
`$\x7b...\x7d` interpolation verbatim (its sub-scan stops only at the
closing backtick, leaving `;`). -/
theorem c10_backtick_template :
    script c10input = .ok ([], Script.mk c10input) ∧
    string_backtick (("\x60template $\x7b1+1\x7d\x60;").toList) =
      .ok ([';'], ("template $\x7b1+1\x7d").toList) :=
  ⟨rfl, rfl⟩

/-! The structural-brace model (from the spec's words):

"the number of unescaped opening braces within `text` equals the number of
unescaped closing braces that are *structural* (i.e., not inside a string
literal)".  A small character automaton tracks whether the current
position is inside a quoted string (of which style, and whether the next
character is backslash-escaped); braces are counted only outside
strings. -/

/-- Scanning state: outside any string, or inside a `q`-quoted string,
with `esc` set when the previous character was an unconsumed backslash. -/
inductive StrState where
  | outside : StrState
  | inString (q : Char) (esc : Bool) : StrState
deriving DecidableEq, Repr

/-- The three quote characters. -/
def quoteChars : List Char := ['\'', '"', BTICK]

/-- One automaton step. -/
def braceStep : StrState → Char → StrState
  | .outside, c => if quoteChars.contains c then .inString c false else .outside
  | .inString q true, _ => .inString q false
  | .inString q false, c =>
    if c = '\\' then .inString q true
    else if c = q then .outside
    else .inString q false

/-- Structural brace contribution of one character:
`(opening, closing)`. -/
def braceCount1 : StrState → Char → Nat × Nat
  | .outside, c =>
    if c = LBRACE then (1, 0) else if c = RBRACE then (0, 1) else (0, 0)
  | .inString _ _, _ => (0, 0)

/-- State after scanning a whole text. -/
def strRun (s : StrState) (l : List Char) : StrState := l.foldl braceStep s

/-- Number of structural opening braces in `l`, scanned from state `s`. -/
def openCount : StrState → List Char → Nat
  | _, [] => 0
  | s, c :: t => (braceCount1 s c).1 + openCount (braceStep s c) t

/-- Number of structural closing braces in `l`, scanned from state `s`. -/
def closeCount : StrState → List Char → Nat
  | _, [] => 0
  | s, c :: t => (braceCount1 s c).2 + closeCount (braceStep s c) t

/-- A text is a balanced segment when scanning it from outside ends
outside and its structural opening and closing brace counts agree. -/
def SegOK (p : List Char) : Prop :=
  strRun .outside p = .outside ∧ openCount .outside p = closeCount .outside p

lemma strRun_nil (s : StrState) : strRun s [] = s := rfl

lemma strRun_cons (s : StrState) (c : Char) (t : List Char) :
    strRun s (c :: t) = strRun (braceStep s c) t := rfl

lemma strRun_append (s : StrState) (u v : List Char) :
    strRun s (u ++ v) = strRun (strRun s u) v := by
  simp [strRun, List.foldl_append]

lemma openCount_append (s : StrState) (u v : List Char) :
    openCount s (u ++ v) = openCount s u + openCount (strRun s u) v := by
  induction u generalizing s with
  | nil => simp [openCount, strRun_nil]
  | cons c t ih => simp [openCount, strRun_cons, ih, Nat.add_assoc]

lemma closeCount_append (s : StrState) (u v : List Char) :
    closeCount s (u ++ v) = closeCount s u + closeCount (strRun s u) v := by
  induction u generalizing s with
  | nil => simp [closeCount, strRun_nil]
  | cons c t ih => simp [closeCount, strRun_cons, ih, Nat.add_assoc]

lemma SegOK_nil : SegOK [] := ⟨rfl, rfl⟩

lemma SegOK_append {p p' : List Char} (h : SegOK p) (h' : SegOK p') :
    SegOK (p ++ p') := by
  obtain ⟨hs, hc⟩ := h
  obtain ⟨hs', hc'⟩ := h'
  refine ⟨?_, ?_⟩
  · rw [strRun_append, hs, hs']
  · rw [openCount_append, closeCount_append, hs, hc, hc']

/-- Characters outside the five-character control set keep the automaton
outside strings and contribute no brace counts. -/
lemma outside_chunk {u : List Char}
    (hu : ∀ c ∈ u, c ≠ LBRACE ∧ c ≠ RBRACE ∧ c ≠ '\'' ∧ c ≠ BTICK ∧ c ≠ '"') :
    strRun .outside u = .outside ∧
    openCount .outside u = 0 ∧ closeCount .outside u = 0 := by
  induction u with
  | nil => exact ⟨rfl, rfl, rfl⟩
  | cons c t ih =>
    obtain ⟨h1, h2, h3, h4, h5⟩ := hu c (List.mem_cons_self c t)
    have ht := ih (fun x hx => hu x (List.mem_cons_of_mem c hx))
    have hq : quoteChars.contains c = false := by
      simp [quoteChars, List.contains_cons, h3, h4, h5]
    have hq' : c ∉ quoteChars := by simpa using hq
    have hstep : braceStep .outside c = .outside := by
      simp [braceStep, hq']
    have hcnt : braceCount1 .outside c = (0, 0) := by
      simp [braceCount1, h1, h2]
    refine ⟨?_, ?_, ?_⟩
    · rw [strRun_cons, hstep, ht.1]
    · simp [openCount, hstep, hcnt, ht.2.1]
    · simp [closeCount, hstep, hcnt, ht.2.2]

/-! Inversion lemmas for the primitive combinators. -/

lemma takeWhile_append_drop (p : Char → Bool) (l : List Char) :
    l.takeWhile p ++ l.drop (l.takeWhile p).length = l := by
  induction l with
  | nil => rfl
  | cons a t ih =>
    by_cases h : p a
    · simp [List.takeWhile_cons, h, ih]
    · simp [List.takeWhile_cons, h]

lemma mem_takeWhile_true {p : Char → Bool} {l : List Char} {c : Char}
    (h : c ∈ l.takeWhile p) : p c = true := by
  induction l with
  | nil => simp [List.takeWhile] at h
  | cons a t ih =>
    by_cases hp : p a
    · rw [List.takeWhile_cons, if_pos hp] at h
      rcases List.mem_cons.mp h with h | h
      · subst h; exact hp
      · exact ih h
    · rw [List.takeWhile_cons, if_neg hp] at h
      exact absurd h (List.not_mem_nil c)

/-- If every character of `u` satisfies `p` and `x` does not,
`takeWhile p` over `u ++ x :: w` is exactly `u`. -/
lemma takeWhile_append_all {p : Char → Bool} {u : List Char} {x : Char}
    {w : List Char} (hu : ∀ c ∈ u, p c = true) (hx : p x = false) :
    (u ++ x :: w).takeWhile p = u := by
  induction u with
  | nil => simp [List.takeWhile_cons, hx]
  | cons a t ih =>
    have ha := hu a (List.mem_cons_self a t)
    simp [List.takeWhile_cons, ha, ih (fun c hc => hu c (List.mem_cons_of_mem a hc))]

lemma tag_ok {t i r v : List Char} (h : tag t i = .ok (r, v)) :
    v = t ∧ t ++ r = i := by
  unfold tag at h
  by_cases hp : i.take t.length = t
  · rw [if_pos hp] at h
    cases h
    exact ⟨rfl, by conv_rhs => rw [← List.take_append_drop t.length i, hp]⟩
  · rw [if_neg hp] at h
    cases h

lemma tag_single_ok {q : Char} {i r v : List Char}
    (h : tag [q] i = .ok (r, v)) : i = q :: r := by
  have := (tag_ok h).2
  simpa using this.symm

lemma tag_cons (q : Char) (i : List Char) : tag [q] (q :: i) = .ok (i, [q]) := by
  simp [tag]

lemma tag_nil (i : List Char) : tag [] i = .ok (i, []) := by
  simp [tag]

lemma is_not_ok {s i r v : List Char} (h : is_not s i = .ok (r, v)) :
    v ++ r = i ∧ v ≠ [] ∧ (∀ c ∈ v, s.contains c = false) ∧ r.length < i.length := by
  unfold is_not at h
  by_cases he : (i.takeWhile (fun c => !(s.contains c))).isEmpty
  · rw [if_pos he] at h; cases h
  · rw [if_neg he] at h
    cases h
    have hne : i.takeWhile (fun c => !(s.contains c)) ≠ [] := by
      intro hh; rw [hh] at he; exact he rfl
    refine ⟨takeWhile_append_drop _ i, hne, ?_, ?_⟩
    · intro c hc
      have := mem_takeWhile_true hc
      simpa using this
    · have hlen : (i.takeWhile (fun c => !(s.contains c))).length +
          (i.drop (i.takeWhile (fun c => !(s.contains c))).length).length = i.length := by
        conv_rhs => rw [← takeWhile_append_drop (fun c => !(s.contains c)) i]
        simp
      have hpos : 0 < (i.takeWhile (fun c => !(s.contains c))).length :=
        List.length_pos.mpr hne
      omega

lemma one_of_ok {s i r v : List Char} (h : one_of s i = .ok (r, v)) :
    ∃ c, i = c :: r ∧ s.contains c = true ∧ v = [c] := by
  cases i with
  | nil => simp [one_of] at h
  | cons c rest =>
    simp only [one_of] at h
    by_cases hc : s.contains c = true
    · rw [if_pos hc] at h
      cases h
      exact ⟨c, rfl, hc, rfl⟩
    · rw [if_neg hc] at h
      cases h

/-! The `escaped` combinator: consumed-prefix property. -/

lemma escaped_go_consumed {normal : List Char → Res} {control : Char}
    {escapable : List Char → Res}
    (hn : ∀ i r v, normal i = .ok (r, v) → v ++ r = i ∧ r.length < i.length)
    (he : ∀ i r v, escapable i = .ok (r, v) → v ++ r = i) :
    ∀ fuel i r w,
      escaped_go normal control escapable fuel i = .ok (r, w) → w ++ r = i := by
  intro fuel
  induction fuel with
  | zero => intro i r w h; simp [escaped_go] at h
  | succ fuel ih =>
    intro i r w h
    cases i with
    | nil =>
      simp only [escaped_go] at h
      cases h
      rfl
    | cons c rest =>
      simp only [escaped_go] at h
      split at h
      · rename_i i2 v hno
        obtain ⟨hvi, hlen⟩ := hn _ _ _ hno
        split at h
        · rename_i hie
          cases h
          simp
        · split at h
          · rename_i hne hl
            cases h
            have : v = [] := by
              have := congrArg List.length hvi
              simp at this
              omega
            subst this
            simpa using hvi
          · split at h
            · rename_i hne hl r' w' hrec
              cases h
              have hw := ih _ _ _ hrec
              rw [List.append_assoc, hw]
              exact hvi
            · cases h
      · rename_i hno
        split at h
        · rename_i hctl
          split at h
          · cases h
          · rename_i d rest'
            split at h
            · rename_i i2 u hesc
              have hui := he _ _ _ hesc
              split at h
              · rename_i hie
                cases h
                simp
              · split at h
                · rename_i r' w' hrec
                  cases h
                  have hw := ih _ _ _ hrec
                  have hcr : c :: d :: rest' = (c :: u) ++ i2 := by
                    simp [← hui]
                  have hlen2 : (c :: d :: rest').length - i2.length = (c :: u).length := by
                    rw [hcr]
                    simp
                    omega
                  rw [hlen2, hcr, List.take_left, List.append_assoc, hw]
                · cases h
            · cases h
        · cases h
          simp
      · cases h

lemma escaped_consumed {normal : List Char → Res} {control : Char}
    {escapable : List Char → Res}
    (hn : ∀ i r v, normal i = .ok (r, v) → v ++ r = i ∧ r.length < i.length)
    (he : ∀ i r v, escapable i = .ok (r, v) → v ++ r = i)
    {i r w : List Char}
    (h : escaped normal control escapable i = .ok (r, w)) : w ++ r = i := by
  unfold escaped at h
  split at h
  · rename_i r0 hgo
    split at h
    · cases h
      rename_i hie
      have := escaped_go_consumed hn he _ _ _ _ hgo
      simpa [List.isEmpty_iff.mp hie] using this
    · cases h
  · exact escaped_go_consumed hn he _ _ _ _ h

lemma is_not_consumed (s : List Char) :
    ∀ i r v, is_not s i = .ok (r, v) → v ++ r = i ∧ r.length < i.length := by
  intro i r v h
  obtain ⟨h1, _, _, h4⟩ := is_not_ok h
  exact ⟨h1, h4⟩

lemma one_of_consumed (s : List Char) :
    ∀ i r v, one_of s i = .ok (r, v) → v ++ r = i := by
  intro i r v h
  obtain ⟨c, hc1, _, hc3⟩ := one_of_ok h
  rw [hc3, hc1]
  rfl

/-! The `escaped` combinator: string bodies keep the automaton inside
the string -/

lemma instring_chunk {q : Char} {u : List Char}
    (hu : ∀ c ∈ u, c ≠ '\\' ∧ c ≠ q) :
    strRun (.inString q false) u = .inString q false ∧
    openCount (.inString q false) u = 0 ∧
    closeCount (.inString q false) u = 0 := by
  induction u with
  | nil => exact ⟨rfl, rfl, rfl⟩
  | cons c t ih =>
    obtain ⟨h1, h2⟩ := hu c (List.mem_cons_self c t)
    have ht := ih (fun x hx => hu x (List.mem_cons_of_mem c hx))
    have hstep : braceStep (.inString q false) c = .inString q false := by
      simp [braceStep, h1, h2]
    refine ⟨?_, ?_, ?_⟩
    · rw [strRun_cons, hstep, ht.1]
    · simp [openCount, hstep, braceCount1, ht.2.1]
    · simp [closeCount, hstep, braceCount1, ht.2.2]

lemma instring_pair (q : Char) :
    strRun (.inString q false) ['\\', q] = .inString q false ∧
    openCount (.inString q false) ['\\', q] = 0 ∧
    closeCount (.inString q false) ['\\', q] = 0 := by
  have h1 : braceStep (.inString q false) '\\' = .inString q true := by
    simp [braceStep]
  have h2 : braceStep (.inString q true) q = .inString q false := rfl
  refine ⟨?_, ?_, ?_⟩
  · rw [strRun_cons, h1, strRun_cons, h2, strRun_nil]
  · simp [openCount, h1, h2, braceCount1]
  · simp [closeCount, h1, h2, braceCount1]

/-- Membership in the two-element escape set, unpacked. -/
lemma not_contains_esc {q c : Char}
    (h : (['\\', q] : List Char).contains c = false) : c ≠ '\\' ∧ c ≠ q := by
  simp only [List.contains_cons, List.contains_nil, Bool.or_eq_false_iff,
    beq_eq_false_iff_ne, ne_eq] at h
  exact ⟨h.1, h.2.1⟩

lemma escaped_go_instring {q : Char} :
    ∀ fuel i r w,
      escaped_go (is_not ['\\', q]) '\\' (one_of [q]) fuel i = .ok (r, w) →
      strRun (.inString q false) w = .inString q false ∧
      openCount (.inString q false) w = 0 ∧
      closeCount (.inString q false) w = 0 := by
  intro fuel
  induction fuel with
  | zero => intro i r w h; simp [escaped_go] at h
  | succ fuel ih =>
    intro i r w h
    cases i with
    | nil =>
      simp only [escaped_go] at h
      cases h
      exact ⟨rfl, rfl, rfl⟩
    | cons c rest =>
      simp only [escaped_go] at h
      split at h
      · rename_i i2 v hno
        obtain ⟨hvi, hvne, hvmem, hlen⟩ := is_not_ok hno
        have hvchunk := instring_chunk (fun x hx => not_contains_esc (hvmem x hx))
        split at h
        · rename_i hie
          cases h
          have hi2 : i2 = [] := List.isEmpty_iff.mp hie
          rw [hi2, List.append_nil] at hvi
          rw [← hvi]
          exact hvchunk
        · split at h
          · rename_i hl
            cases h
            exact ⟨rfl, rfl, rfl⟩
          · split at h
            · rename_i r' w' hrec
              cases h
              obtain ⟨hs', ho', hc'⟩ := ih _ _ _ hrec
              refine ⟨?_, ?_, ?_⟩
              · rw [strRun_append, hvchunk.1, hs']
              · rw [openCount_append, hvchunk.1, hvchunk.2.1, ho']
              · rw [closeCount_append, hvchunk.1, hvchunk.2.2, hc']
            · cases h
      · rename_i hno
        split at h
        · rename_i hctl
          subst hctl
          split at h
          · cases h
          · rename_i d rest'
            split at h
            · rename_i i2 u hesc
              obtain ⟨e, he1, he2, he3⟩ := one_of_ok hesc
              have heq : e = q := by
                simp only [List.contains_cons, List.contains_nil, Bool.or_eq_false_iff,
                  beq_iff_eq, Bool.or_eq_true] at he2
                rcases he2 with h | h
                · exact h
                · simp at h
              rw [heq] at he1
              split at h
              · rename_i hie
                cases h
                have hi2 : i2 = [] := List.isEmpty_iff.mp hie
                have hdq : d :: rest' = [q] := by rw [he1, hi2]
                rw [hdq]
                exact instring_pair q
              · split at h
                · rename_i r' w' hrec
                  cases h
                  obtain ⟨hs', ho', hc'⟩ := ih _ _ _ hrec
                  have htake : ('\\' :: d :: rest').take ((('\\' : Char) :: d :: rest').length - i2.length) = ['\\', q] := by
                    rw [he1]
                    have hl2 : ('\\' :: q :: i2).length - i2.length = 2 := by
                      simp only [List.length_cons]
                      omega
                    rw [hl2]
                    rfl
                  rw [htake]
                  have hp := instring_pair q
                  refine ⟨?_, ?_, ?_⟩
                  · rw [strRun_append, hp.1, hs']
                  · rw [openCount_append, hp.1, hp.2.1, ho']
                  · rw [closeCount_append, hp.1, hp.2.2, hc']
                · cases h
            · cases h
        · cases h
          exact ⟨rfl, rfl, rfl⟩
      · cases h

lemma escaped_instring {q : Char} {i r w : List Char}
    (h : escaped (is_not ['\\', q]) '\\' (one_of [q]) i = .ok (r, w)) :
    strRun (.inString q false) w = .inString q false ∧
    openCount (.inString q false) w = 0 ∧
    closeCount (.inString q false) w = 0 := by
  unfold escaped at h
  split at h
  · rename_i r0 hgo
    split at h
    · cases h
      exact ⟨rfl, rfl, rfl⟩
    · cases h
  · exact escaped_go_instring _ _ _ _ h

/-- Inversion for any of the three string sub-scanners, written over the
shared shape `tag [q]`, `alt((escaped(is_not [\\, q], \\, one_of [q]),
tag("")))`, `tag [q]`: the consumed text is the body wrapped in the two
quotes, and the body keeps the automaton inside the `q`-string. -/
lemma string_shape_ok {q : Char} {i r v : List Char}
    (h : (match tag [q] i with
          | .error e => (.error e : Res)
          | .ok (i1, _) =>
            match alt2 (escaped (is_not ['\\', q]) '\\' (one_of [q])) (tag []) i1 with
            | .error e => (.error e : Res)
            | .ok (i2, v) =>
              match tag [q] i2 with
              | .error e => (.error e : Res)
              | .ok (i3, _) => (.ok (i3, v) : Res)) = .ok (r, v)) :
    (q :: (v ++ [q])) ++ r = i ∧
    strRun (.inString q false) v = .inString q false ∧
    openCount (.inString q false) v = 0 ∧
    closeCount (.inString q false) v = 0 := by
  split at h
  · cases h
  · rename_i i1 t1 htag1
    split at h
    · cases h
    · rename_i i2 v0 halt
      split at h
      · cases h
      · rename_i i3 t3 htag3
        cases h
        have hi : i = q :: i1 := tag_single_ok htag1
        have hi2 : i2 = q :: r := tag_single_ok htag3
        unfold alt2 at halt
        split at halt
        · rename_i hesc
          -- first alternative failed with Err::Error, tag "" matched
          rw [tag_nil] at halt
          cases halt
          refine ⟨?_, rfl, rfl, rfl⟩
          rw [hi, hi2]
          rfl
        · -- the escaped parser succeeded
          rename_i x hne
          have hcons := escaped_consumed (is_not_consumed _) (one_of_consumed _) halt
          have hins := escaped_instring halt
          refine ⟨?_, hins⟩
          rw [hi, ← hcons, hi2]
          simp

lemma string_single_ok {i r v : List Char} (h : string_single i = .ok (r, v)) :
    ('\'' :: (v ++ ['\''])) ++ r = i ∧
    strRun (.inString '\'' false) v = .inString '\'' false ∧
    openCount (.inString '\'' false) v = 0 ∧
    closeCount (.inString '\'' false) v = 0 := by
  unfold string_single SINGLE SINGLE_ESC at h
  exact string_shape_ok h

lemma string_double_ok {i r v : List Char} (h : string_double i = .ok (r, v)) :
    ('"' :: (v ++ ['"'])) ++ r = i ∧
    strRun (.inString '"' false) v = .inString '"' false ∧
    openCount (.inString '"' false) v = 0 ∧
    closeCount (.inString '"' false) v = 0 := by
  unfold string_double DOUBLE DOUBLE_ESC at h
  exact string_shape_ok h

lemma string_backtick_ok {i r v : List Char} (h : string_backtick i = .ok (r, v)) :
    (BTICK :: (v ++ [BTICK])) ++ r = i ∧
    strRun (.inString BTICK false) v = .inString BTICK false ∧
    openCount (.inString BTICK false) v = 0 ∧
    closeCount (.inString BTICK false) v = 0 := by
  unfold string_backtick BACKTICK BACKTICK_ESC at h
  exact string_shape_ok h

/-- A whole quoted string — opening quote, body, closing quote — is a
balanced segment: from outside it re-enters the outside state and
contributes no structural braces. -/
lemma SegOK_string {q : Char} {v : List Char}
    (hq : quoteChars.contains q = true)
    (hqb : q ≠ LBRACE ∧ q ≠ RBRACE ∧ q ≠ '\\')
    (hs : strRun (.inString q false) v = .inString q false)
    (ho : openCount (.inString q false) v = 0)
    (hc : closeCount (.inString q false) v = 0) :
    SegOK (q :: (v ++ [q])) := by
  have hstep : braceStep .outside q = .inString q false := by
    simp only [braceStep]
    rw [if_pos hq]
  have hclose : braceStep (.inString q false) q = .outside := by
    simp [braceStep, hqb.2.2]
  have hcnt : braceCount1 .outside q = (0, 0) := by
    simp [braceCount1, hqb.1, hqb.2.1]
  constructor
  · rw [strRun_cons, hstep, strRun_append, hs]
    rw [strRun_cons, hclose, strRun_nil]
  · have hopen : openCount .outside (q :: (v ++ [q])) = 0 := by
      simp only [openCount, hstep, hcnt]
      rw [openCount_append, ho, hs]
      simp [openCount, hclose, braceCount1]
    have hclose' : closeCount .outside (q :: (v ++ [q])) = 0 := by
      simp only [closeCount, hstep, hcnt]
      rw [closeCount_append, hc, hs]
      simp [closeCount, hclose, braceCount1]
    rw [hopen, hclose']

/-- A brace group around a balanced segment is balanced: the braces pair
with each other. -/
lemma SegOK_brace {p : List Char} (h : SegOK p) :
    SegOK (LBRACE :: (p ++ [RBRACE])) := by
  obtain ⟨hs, hcnt⟩ := h
  have hstepL : braceStep .outside LBRACE = .outside := by
    simp [braceStep, quoteChars]
    decide
  have hstepR : braceStep .outside RBRACE = .outside := by
    simp [braceStep, quoteChars]
    decide
  have hcntL : braceCount1 .outside LBRACE = (1, 0) := by
    simp [braceCount1]
  have hcntR : braceCount1 .outside RBRACE = (0, 1) := by
    simp [braceCount1]
    decide
  constructor
  · rw [strRun_cons, hstepL, strRun_append, hs, strRun_cons, hstepR, strRun_nil]
  · have ho : openCount .outside (LBRACE :: (p ++ [RBRACE])) =
        1 + openCount .outside p := by
      simp only [openCount, hstepL, hcntL]
      rw [openCount_append, hs]
      simp [openCount, hstepR, hcntR]
    have hc : closeCount .outside (LBRACE :: (p ++ [RBRACE])) =
        closeCount .outside p + 1 := by
      simp only [closeCount, hstepL, hcntL]
      rw [closeCount_append, hs]
      simp [closeCount, hstepR, hcntR]
    rw [ho, hc, hcnt]
    omega

lemma not_contains_scanset {c : Char}
    (h : ([LBRACE, RBRACE, '\'', BTICK, '"'] : List Char).contains c = false) :
    c ≠ LBRACE ∧ c ≠ RBRACE ∧ c ≠ '\'' ∧ c ≠ BTICK ∧ c ≠ '"' := by
  simp only [List.contains_cons, List.contains_nil, Bool.or_eq_false_iff,
    beq_eq_false_iff_ne, ne_eq] at h
  exact ⟨h.1, h.2.1, h.2.2.1, h.2.2.2.1, h.2.2.2.2.1⟩

lemma char_any_seg {i r v : List Char} (h : char_any i = .ok (r, v)) :
    v ++ r = i ∧ SegOK v := by
  obtain ⟨h1, _, h3, _⟩ := is_not_ok h
  have := outside_chunk (fun c hc => not_contains_scanset (h3 c hc))
  exact ⟨h1, this.1, by rw [this.2.1, this.2.2]⟩

lemma string_single_seg {i r v : List Char} (h : string_single i = .ok (r, v)) :
    ∃ p, p ++ r = i ∧ SegOK p := by
  obtain ⟨h1, h2, h3, h4⟩ := string_single_ok h
  exact ⟨_, h1, SegOK_string (by decide) (by decide) h2 h3 h4⟩

lemma string_double_seg {i r v : List Char} (h : string_double i = .ok (r, v)) :
    ∃ p, p ++ r = i ∧ SegOK p := by
  obtain ⟨h1, h2, h3, h4⟩ := string_double_ok h
  exact ⟨_, h1, SegOK_string (by decide) (by decide) h2 h3 h4⟩

lemma string_backtick_seg {i r v : List Char} (h : string_backtick i = .ok (r, v)) :
    ∃ p, p ++ r = i ∧ SegOK p := by
  obtain ⟨h1, h2, h3, h4⟩ := string_backtick_ok h
  exact ⟨_, h1, SegOK_string (by decide) (by decide) h2 h3 h4⟩

/-- The scanner's structural invariant, for every fuel level: whenever a
sub-scanner of the mutual recursion succeeds, it has consumed a prefix of
its input that is a balanced segment (ends outside any string; equal
structural brace counts), and `script_raw`'s recognized output is exactly
that consumed prefix. -/
lemma scan_ok_inv : ∀ fuel : Nat,
    (∀ i r v, script_alt fuel i = .ok (r, v) → ∃ p, p ++ r = i ∧ SegOK p) ∧
    (∀ i r v, char_object fuel i = .ok (r, v) → ∃ p, p ++ r = i ∧ SegOK p) ∧
    (∀ i r, many1_first fuel i = .ok r → ∃ p, p ++ r = i ∧ SegOK p) ∧
    (∀ i r, many1_rest fuel i = .ok r → ∃ p, p ++ r = i ∧ SegOK p) ∧
    (∀ i r v, script_raw fuel i = .ok (r, v) → v ++ r = i ∧ SegOK v) := by
  intro fuel
  induction fuel with
  | zero =>
    refine ⟨?_, ?_, ?_, ?_, ?_⟩ <;> intro i r
    · intro v h; simp [script_alt] at h
    · intro v h; simp [char_object] at h
    · intro h; simp [many1_first] at h
    · intro h; simp [many1_rest] at h
    · intro v h; simp [script_raw] at h
  | succ fuel ih =>
    obtain ⟨ihA, ihO, ihF, ihR, ihS⟩ := ih
    have stepA : ∀ i r v, script_alt (fuel + 1) i = .ok (r, v) →
        ∃ p, p ++ r = i ∧ SegOK p := by
      intro i r v h
      simp only [script_alt] at h
      split at h
      · rename_i x hca
        cases h
        obtain ⟨h1, h2⟩ := char_any_seg hca
        exact ⟨_, h1, h2⟩
      · split at h
        · rename_i x hco
          cases h
          exact ihO _ _ _ hco
        · split at h
          · rename_i x hss
            cases h
            exact string_single_seg hss
          · split at h
            · rename_i x hsd
              cases h
              exact string_double_seg hsd
            · exact string_backtick_seg h
            · cases h
          · cases h
        · cases h
      · cases h
    have stepO : ∀ i r v, char_object (fuel + 1) i = .ok (r, v) →
        ∃ p, p ++ r = i ∧ SegOK p := by
      intro i r v h
      simp only [char_object] at h
      split at h
      · cases h
      · rename_i i1 t1 htag1
        split at h
        · cases h
        · rename_i i2 v2 hraw
          split at h
          · cases h
          · rename_i i3 t3 htag3
            cases h
            obtain ⟨hvi, hseg⟩ := ihS _ _ _ hraw
            have hi : i = LBRACE :: i1 := by
              have := (tag_ok htag1).2
              simpa [OBJECT_BEG] using this.symm
            have hi2 : i2 = RBRACE :: r := by
              have := (tag_ok htag3).2
              simpa [OBJECT_END] using this.symm
            refine ⟨LBRACE :: (v ++ [RBRACE]), ?_, SegOK_brace hseg⟩
            rw [hi, ← hvi, hi2]
            simp
    have stepF : ∀ i r, many1_first (fuel + 1) i = .ok r →
        ∃ p, p ++ r = i ∧ SegOK p := by
      intro i r h
      simp only [many1_first] at h
      split at h
      · cases h
      · rename_i i1 o1 halt
        obtain ⟨p, hp, hseg⟩ := ihA _ _ _ halt
        obtain ⟨p', hp', hseg'⟩ := ihR _ _ h
        exact ⟨p ++ p', by rw [List.append_assoc, hp', hp], SegOK_append hseg hseg'⟩
    have stepR : ∀ i r, many1_rest (fuel + 1) i = .ok r →
        ∃ p, p ++ r = i ∧ SegOK p := by
      intro i r h
      simp only [many1_rest] at h
      split at h
      · rename_i hstop
        cases h
        exact ⟨[], rfl, SegOK_nil⟩
      · cases h
      · rename_i i1 o1 halt
        split at h
        · cases h
        · obtain ⟨p, hp, hseg⟩ := ihA _ _ _ halt
          obtain ⟨p', hp', hseg'⟩ := ihR _ _ h
          exact ⟨p ++ p', by rw [List.append_assoc, hp', hp], SegOK_append hseg hseg'⟩
    have stepS : ∀ i r v, script_raw (fuel + 1) i = .ok (r, v) →
        v ++ r = i ∧ SegOK v := by
      intro i r v h
      simp only [script_raw] at h
      split at h
      · cases h
      · rename_i r0 hfirst
        cases h
        obtain ⟨p, hp, hseg⟩ := ihF _ _ hfirst
        have hlen : i.length - r.length = p.length := by
          have := congrArg List.length hp
          simp at this
          omega
        have htake : i.take (i.length - r.length) = p := by
          rw [hlen, ← hp, List.take_left]
        rw [htake]
        exact ⟨hp, hseg⟩
    exact ⟨stepA, stepO, stepF, stepR, stepS⟩

/-- C2: whenever `script` succeeds on input `i` with remainder `r` and a
literal `s`, the literal's text concatenated with the remainder is exactly
`i` (the literal is the verbatim consumed prefix), and the `Display`
rendering of the literal is that same text, unchanged — so scan-then-render
is the identity on the consumed text. -/
theorem script_roundtrip_identity (i r : List Char) (s : Script)
    (h : script i = .ok (r, s)) :
    s.text ++ r = i ∧ scriptDisplay s = s.text := by
  unfold script at h
  split at h
  · cases h
  · rename_i r0 v0 hraw
    cases h
    obtain ⟨hvi, _⟩ := (scan_ok_inv (scriptFuel i)).2.2.2.2 _ _ _ hraw
    have hlen : i.length - r.length = v0.length := by
      have := congrArg List.length hvi
      simp at this
      omega
    refine ⟨?_, rfl⟩
    show i.take (i.length - r.length) ++ r = i
    rw [hlen, ← hvi, List.take_left]

/-- Witness for C2 at the concrete input `return true;` (consumed whole,
empty remainder). -/
theorem script_roundtrip_identity_witness :
    (Script.mk (("return true;").toList)).text ++ ([] : List Char) =
        ("return true;").toList ∧
      scriptDisplay (Script.mk (("return true;").toList)) =
        (Script.mk (("return true;").toList)).text :=
  script_roundtrip_identity (("return true;").toList) [] _ rfl

/-- C7: every literal accepted by `script` has equally many structural
opening and closing braces — braces counted by the automaton only outside
quoted strings. -/
theorem script_brace_balance (i r : List Char) (s : Script)
    (h : script i = .ok (r, s)) :
    openCount .outside s.text = closeCount .outside s.text := by
  unfold script at h
  split at h
  · cases h
  · rename_i r0 v0 hraw
    cases h
    obtain ⟨hvi, hseg⟩ := (scan_ok_inv (scriptFuel i)).2.2.2.2 _ _ _ hraw
    have hlen : i.length - r.length = v0.length := by
      have := congrArg List.length hvi
      simp at this
      omega
    show openCount .outside (i.take (i.length - r.length)) =
      closeCount .outside (i.take (i.length - r.length))
    rw [hlen, ← hvi, List.take_left]
    exact hseg.2

/-- Witness for C7 at the C4 input (a literal containing nested braces and
a brace-laden string). -/
theorem script_brace_balance_witness :
    openCount .outside (Script.mk c4input).text =
      closeCount .outside (Script.mk c4input).text :=
  script_brace_balance c4input [] _ rfl

/-! C3: what a backslash may escape inside a string body. -/

lemma tag_single_mismatch {q x : Char} (h : x ≠ q) (l : List Char) :
    tag [q] (x :: l) = .error .error := by
  simp [tag, h]

/-- With `escapable = one_of [q]`, a backslash followed by any character
other than `q` makes `escaped` fail (nom propagates the escapable
parser's error). -/
lemma escaped_bad_escape {q c : Char} (hc : c ≠ q) :
    escaped (is_not ['\\', q]) '\\' (one_of [q]) ['\\', c, q] = .error .error := by
  have h1 : is_not ['\\', q] ['\\', c, q] = .error .error := by
    simp [is_not, List.takeWhile_cons]
  have h2 : one_of [q] [c, q] = .error .error := by
    simp [one_of, hc]
  unfold escaped
  simp only [escaped_go, h1, h2]
  simp

/-- C3 (counterexample): a backslash does not escape an arbitrary
following character — `'a\xb'`-style input `'\x'` is rejected by the
single-quote sub-scanner. -/
theorem escape_any_char_counterexample :
    string_single ['\'', '\\', 'x', '\''] = .error .error := rfl

/-- C3 (amended): inside a quoted-string body, a backslash may escape
*only* the matching quote character (`escapable = one_of(<quote>)`): for
each style, `<quote>\c<quote>` is accepted exactly when `c` is the
matching quote, and rejected for every other `c`. -/
theorem escape_only_matching_quote (c : Char) :
    (string_single ['\'', '\\', c, '\''] =
      if c = '\'' then .ok ([], ['\\', '\'']) else .error .error) ∧
    (string_double ['"', '\\', c, '"'] =
      if c = '"' then .ok ([], ['\\', '"']) else .error .error) ∧
    (string_backtick [BTICK, '\\', c, BTICK] =
      if c = BTICK then .ok ([], ['\\', BTICK]) else .error .error) := by
  refine ⟨?_, ?_, ?_⟩
  · by_cases hc : c = '\''
    · subst hc; rfl
    · rw [if_neg hc]
      have ha : escaped (is_not ['\\', '\'']) '\\' (one_of ['\''])
          ['\\', c, '\''] = .error .error := escaped_bad_escape hc
      have e2 : alt2 (escaped (is_not ['\\', '\'']) '\\' (one_of ['\''])) (tag [])
          ['\\', c, '\''] = .ok (['\\', c, '\''], []) := by
        simp only [alt2, ha, tag_nil]
      have e3 : tag ['\''] ['\\', c, '\''] = .error .error :=
        tag_single_mismatch (by decide) _
      simp only [string_single, SINGLE, SINGLE_ESC, tag_cons, e2, e3]
  · by_cases hc : c = '"'
    · subst hc; rfl
    · rw [if_neg hc]
      have ha : escaped (is_not ['\\', '"']) '\\' (one_of ['"'])
          ['\\', c, '"'] = .error .error := escaped_bad_escape hc
      have e2 : alt2 (escaped (is_not ['\\', '"']) '\\' (one_of ['"'])) (tag [])
          ['\\', c, '"'] = .ok (['\\', c, '"'], []) := by
        simp only [alt2, ha, tag_nil]
      have e3 : tag ['"'] ['\\', c, '"'] = .error .error :=
        tag_single_mismatch (by decide) _
      simp only [string_double, DOUBLE, DOUBLE_ESC, tag_cons, e2, e3]
  · by_cases hc : c = BTICK
    · subst hc; rfl
    · rw [if_neg hc]
      have ha : escaped (is_not ['\\', BTICK]) '\\' (one_of [BTICK])
          ['\\', c, BTICK] = .error .error := escaped_bad_escape hc
      have e2 : alt2 (escaped (is_not ['\\', BTICK]) '\\' (one_of [BTICK])) (tag [])
          ['\\', c, BTICK] = .ok (['\\', c, BTICK], []) := by
        simp only [alt2, ha, tag_nil]
      have e3 : tag [BTICK] ['\\', c, BTICK] = .error .error :=
        tag_single_mismatch (by decide) _
      simp only [string_backtick, BACKTICK, BACKTICK_ESC, tag_cons, e2, e3]

/-! C5: an escaped matching quote does not close the string. -/

lemma contains_esc_false {q c : Char} (h1 : c ≠ '\\') (h2 : c ≠ q) :
    (['\\', q] : List Char).contains c = false := by
  simp [List.contains_cons, h1, h2]

lemma is_not_run {s u : List Char} {x : Char} {w : List Char}
    (hu : ∀ c ∈ u, s.contains c = false) (hx : s.contains x = true)
    (hne : u ≠ []) :
    is_not s (u ++ x :: w) = .ok (x :: w, u) := by
  have ht : (u ++ x :: w).takeWhile (fun c => !(s.contains c)) = u :=
    takeWhile_append_all (fun c hc => by simp only [hu c hc, Bool.not_false])
      (by simp only [hx, Bool.not_true])
  have hie : u.isEmpty = false := by
    cases u
    · exact absurd rfl hne
    · rfl
  simp only [is_not, ht, hie]
  simp [List.drop_left]

/-- Stopping step: at an unescaped quote, `escaped_go` stops with nothing
consumed at this level. -/
lemma go_stop {q : Char} (hq : q ≠ '\\') (t : List Char) (f : Nat) :
    escaped_go (is_not ['\\', q]) '\\' (one_of [q]) (f + 1) (q :: t) =
      .ok (q :: t, []) := by
  have h1 : is_not ['\\', q] (q :: t) = .error .error := by
    simp [is_not, List.takeWhile_cons]
  simp only [escaped_go, h1]
  simp [hq]

/-- Run-then-stop: a quote-free, backslash-free run before an unescaped
quote is consumed, and the scan stops at the quote. -/
lemma go_b {q : Char} (hq : q ≠ '\\') {b : List Char}
    (hb : ∀ c ∈ b, c ≠ '\\' ∧ c ≠ q) (t : List Char) (f : Nat) :
    escaped_go (is_not ['\\', q]) '\\' (one_of [q]) (f + 2) (b ++ q :: t) =
      .ok (q :: t, b) := by
  cases b with
  | nil =>
    simpa using go_stop hq t (f + 1)
  | cons x b' =>
    have hmem : ∀ c ∈ x :: b', (['\\', q] : List Char).contains c = false :=
      fun c hc => contains_esc_false (hb c hc).1 (hb c hc).2
    have hxq : (['\\', q] : List Char).contains q = true := by simp
    have hn : is_not ['\\', q] (x :: (b' ++ q :: t)) =
        .ok (q :: t, x :: b') := by
      have := @is_not_run ['\\', q] (x :: b') q t hmem hxq (by simp)
      simpa using this
    have hlen : ¬((q :: t).length = (x :: (b' ++ q :: t)).length) := by
      simp only [List.length_cons, List.length_append]
      omega
    have h1 : is_not ['\\', q] (q :: t) = .error .error := by
      simp [is_not, List.takeWhile_cons]
    rw [List.cons_append]
    simp [escaped_go, hn, h1, hq, hlen]
    omega

/-- Escape step: `\q` is consumed as an escaped pair and scanning
continues; the string still closes only at the later unescaped quote. -/
lemma go_esc {q : Char} (hq : q ≠ '\\') {b : List Char}
    (hb : ∀ c ∈ b, c ≠ '\\' ∧ c ≠ q) (t : List Char) (f : Nat) :
    escaped_go (is_not ['\\', q]) '\\' (one_of [q]) (f + 3)
        ('\\' :: q :: (b ++ q :: t)) = .ok (q :: t, '\\' :: q :: b) := by
  have h1 : is_not ['\\', q] ('\\' :: q :: (b ++ q :: t)) = .error .error := by
    simp [is_not, List.takeWhile_cons]
  have h2 : one_of [q] (q :: (b ++ q :: t)) = .ok (b ++ q :: t, [q]) := by
    simp [one_of]
  have hie : (b ++ q :: t).isEmpty = false := by
    cases b <;> rfl
  have hrec : escaped_go (is_not ['\\', q]) '\\' (one_of [q]) (f + 2)
      (b ++ q :: t) = .ok (q :: t, b) := go_b hq hb t f
  have htake : ('\\' :: q :: (b ++ q :: t)).take
      (('\\' :: q :: (b ++ q :: t)).length - (b ++ q :: t).length) =
      ['\\', q] := by
    have hl2 : ('\\' :: q :: (b ++ q :: t)).length - (b ++ q :: t).length = 2 := by
      simp only [List.length_cons]
      omega
    rw [hl2]
    rfl
  simp only [escaped_go, h1, h2, hie, hrec, htake]
  simp

/-- Full body `a \q b` before the closing quote: the leading run is
consumed, the escaped pair is skipped, and `escaped` stops exactly at the
closing unescaped quote. -/
lemma go_full {q : Char} (hq : q ≠ '\\') {a b : List Char}
    (ha : ∀ c ∈ a, c ≠ '\\' ∧ c ≠ q) (hb : ∀ c ∈ b, c ≠ '\\' ∧ c ≠ q)
    (t : List Char) (f : Nat) :
    escaped_go (is_not ['\\', q]) '\\' (one_of [q]) (f + 4)
        (a ++ '\\' :: q :: (b ++ q :: t)) = .ok (q :: t, a ++ '\\' :: q :: b) := by
  cases a with
  | nil =>
    simpa using go_esc hq hb t (f + 1)
  | cons x a' =>
    have hmem : ∀ c ∈ x :: a', (['\\', q] : List Char).contains c = false :=
      fun c hc => contains_esc_false (ha c hc).1 (ha c hc).2
    have hn : is_not ['\\', q] (x :: (a' ++ '\\' :: q :: (b ++ q :: t))) =
        .ok ('\\' :: q :: (b ++ q :: t), x :: a') := by
      have := @is_not_run ['\\', q] (x :: a') '\\' (q :: (b ++ q :: t)) hmem
        (by simp) (by simp)
      simpa using this
    have hlen : ¬(('\\' :: q :: (b ++ q :: t)).length =
        (x :: (a' ++ '\\' :: q :: (b ++ q :: t))).length) := by
      simp only [List.length_cons, List.length_append]
      omega
    have h1b : is_not ['\\', q] ('\\' :: q :: (b ++ q :: t)) = .error .error := by
      simp [is_not, List.takeWhile_cons]
    have h2 : one_of [q] (q :: (b ++ q :: t)) = .ok (b ++ q :: t, [q]) := by
      simp [one_of]
    have hne : ¬(b ++ q :: t) = [] := by cases b <;> simp
    have hrec2 : escaped_go (is_not ['\\', q]) '\\' (one_of [q]) (f + 2)
        (b ++ q :: t) = .ok (q :: t, b) := go_b hq hb t f
    have htake : List.take (('\\' :: q :: (b ++ q :: t)).length - (b ++ q :: t).length)
        ('\\' :: q :: (b ++ q :: t)) = ['\\', q] := by
      have hl2 : ('\\' :: q :: (b ++ q :: t)).length - (b ++ q :: t).length = 2 := by
        simp only [List.length_cons]
        omega
      rw [hl2]
      rfl
    rw [List.cons_append]
    simp [escaped_go, hn, h1b, h2, hne, hrec2, hlen, htake]
    rw [if_neg (by omega)]
    rw [show b.length + (t.length + 1) + 1 + 1 - (b.length + (t.length + 1)) = 2 from
      by omega]
    rfl

lemma escaped_quote_body {q : Char} (hq : q ≠ '\\') {a b : List Char}
    (ha : ∀ c ∈ a, c ≠ '\\' ∧ c ≠ q) (hb : ∀ c ∈ b, c ≠ '\\' ∧ c ≠ q)
    (t : List Char) :
    escaped (is_not ['\\', q]) '\\' (one_of [q])
        (a ++ '\\' :: q :: (b ++ q :: t)) = .ok (q :: t, a ++ '\\' :: q :: b) := by
  unfold escaped
  rw [show (a ++ '\\' :: q :: (b ++ q :: t)).length + 1 =
      (a.length + b.length + t.length) + 4 from by simp; omega]
  rw [go_full hq ha hb t _]
  cases a with
  | nil => rfl
  | cons x a' => rfl

/-- C5: for every quote style, an escaped matching quote inside the body
does not close the string — the sub-scanner consumes past it and closes
only at the next unescaped matching quote, leaving exactly the text after
that quote unconsumed. -/
theorem escaped_quote_not_closing (a b rest : List Char)
    (ha : ∀ c ∈ a, c ≠ '\\' ∧ c ≠ '\'' ∧ c ≠ '"' ∧ c ≠ BTICK)
    (hb : ∀ c ∈ b, c ≠ '\\' ∧ c ≠ '\'' ∧ c ≠ '"' ∧ c ≠ BTICK) :
    string_single ('\'' :: (a ++ '\\' :: '\'' :: (b ++ '\'' :: rest))) =
      .ok (rest, a ++ '\\' :: '\'' :: b) ∧
    string_double ('"' :: (a ++ '\\' :: '"' :: (b ++ '"' :: rest))) =
      .ok (rest, a ++ '\\' :: '"' :: b) ∧
    string_backtick (BTICK :: (a ++ '\\' :: BTICK :: (b ++ BTICK :: rest))) =
      .ok (rest, a ++ '\\' :: BTICK :: b) := by
  refine ⟨?_, ?_, ?_⟩
  · have hesc := escaped_quote_body (q := '\'') (by decide)
      (fun c hc => ⟨(ha c hc).1, (ha c hc).2.1⟩)
      (fun c hc => ⟨(hb c hc).1, (hb c hc).2.1⟩) rest
    have halt : alt2 (escaped (is_not ['\\', '\'']) '\\' (one_of ['\''])) (tag [])
        (a ++ '\\' :: '\'' :: (b ++ '\'' :: rest)) =
        .ok ('\'' :: rest, a ++ '\\' :: '\'' :: b) := by
      simp only [alt2, hesc]
    simp only [string_single, SINGLE, SINGLE_ESC, tag_cons, halt]
  · have hesc := escaped_quote_body (q := '"') (by decide)
      (fun c hc => ⟨(ha c hc).1, (ha c hc).2.2.1⟩)
      (fun c hc => ⟨(hb c hc).1, (hb c hc).2.2.1⟩) rest
    have halt : alt2 (escaped (is_not ['\\', '"']) '\\' (one_of ['"'])) (tag [])
        (a ++ '\\' :: '"' :: (b ++ '"' :: rest)) =
        .ok ('"' :: rest, a ++ '\\' :: '"' :: b) := by
      simp only [alt2, hesc]
    simp only [string_double, DOUBLE, DOUBLE_ESC, tag_cons, halt]
  · have hesc := escaped_quote_body (q := BTICK) (by decide)
      (fun c hc => ⟨(ha c hc).1, (ha c hc).2.2.2⟩)
      (fun c hc => ⟨(hb c hc).1, (hb c hc).2.2.2⟩) rest
    have halt : alt2 (escaped (is_not ['\\', BTICK]) '\\' (one_of [BTICK])) (tag [])
        (a ++ '\\' :: BTICK :: (b ++ BTICK :: rest)) =
        .ok (BTICK :: rest, a ++ '\\' :: BTICK :: b) := by
      simp only [alt2, hesc]
    simp only [string_backtick, BACKTICK, BACKTICK_ESC, tag_cons, halt]

/-- Witness for C5 at a concrete body: `'a\'b'r` and its analogues. -/
theorem escaped_quote_not_closing_witness :
    string_single ('\'' :: (['a'] ++ '\\' :: '\'' :: (['b'] ++ '\'' :: ['r']))) =
      .ok (['r'], ['a'] ++ '\\' :: '\'' :: ['b']) ∧
    string_double ('"' :: (['a'] ++ '\\' :: '"' :: (['b'] ++ '"' :: ['r']))) =
      .ok (['r'], ['a'] ++ '\\' :: '"' :: ['b']) ∧
    string_backtick (BTICK :: (['a'] ++ '\\' :: BTICK :: (['b'] ++ BTICK :: ['r']))) =
      .ok (['r'], ['a'] ++ '\\' :: BTICK :: ['b']) :=
  escaped_quote_not_closing ['a'] ['b'] ['r'] (by decide) (by decide)

/-- Witness for the amended C3 at the concrete character `x`. -/
theorem escape_only_matching_quote_witness :
    (string_single ['\'', '\\', 'x', '\''] =
      if ('x' : Char) = '\'' then .ok ([], ['\\', '\'']) else .error .error) ∧
    (string_double ['"', '\\', 'x', '"'] =
      if ('x' : Char) = '"' then .ok ([], ['\\', '"']) else .error .error) ∧
    (string_backtick [BTICK, '\\', 'x', BTICK] =
      if ('x' : Char) = BTICK then .ok ([], ['\\', BTICK]) else .error .error) :=
  escape_only_matching_quote 'x'
